import Mathlib

/-!
# Verification of `generate-photo-metadata-csv.py`

A shallow embedding of the program's components, with theorems about them.

Modelling conventions:
* Python strings are Lean `String`s; where character-level reasoning is needed
  they are handled through `String.toList`.
* `str.split(sep)` for a one-character separator is embedded as `pySplit`
  (every occurrence of the separator cuts; empty pieces are kept).
* The filesystem state of the one image file a call works on is its byte
  content, a `List ℕ`; `img.save(..., quality=q)` is an oracle
  `encBytes : ℕ → List ℕ` giving the bytes produced at each quality.
* The HTTP response is a status code plus an optional parsed `data` object
  (an association list); the JSON decoding itself is external-library work.
* `print` diagnostics are collected in a `List String` log.
* Python's float arithmetic `processed / total * 100` is embedded over `ℚ`
  (exact), with the division made fallible (`pyDivQ`) so that the
  division-by-zero behaviour is observable, and Python 3 `round`
  (round-half-to-even) embedded as `pyRound`.
-/

/-! ## Context deriver

Source: `custom_context = " ".join([c for c in
filename.split(".")[0].split("_") if c != "g" and not c.isdigit()])`. -/

/-- `str.split(sep)` (single-character separator, Python semantics): every
occurrence of `sep` cuts, and empty pieces are kept. `acc` holds the chars of
the current piece, reversed. -/
def splitCharAux (sep : Char) : List Char → List Char → List (List Char)
  | [], acc => [acc.reverse]
  | c :: cs, acc =>
    if c = sep then acc.reverse :: splitCharAux sep cs []
    else splitCharAux sep cs (c :: acc)

/-- `s.split(sep)` for a one-character separator. -/
def pySplit (sep : Char) (s : List Char) : List (List Char) :=
  splitCharAux sep s []

/-- `str.isdigit()`: non-empty and every character a digit. -/
def pyIsDigit (t : List Char) : Bool :=
  !t.isEmpty && t.all Char.isDigit

/-- The comprehension guard `c != "g" and not c.isdigit()`. -/
def keepTok (t : List Char) : Bool :=
  t != ['g'] && !(pyIsDigit t)

/-- `" ".join(tokens)`. -/
def joinSp : List (List Char) → List Char
  | [] => []
  | [t] => t
  | t :: u :: ts => t ++ ' ' :: joinSp (u :: ts)

/-- `filename.split(".")[0].split("_")`: the raw underscore-split tokens of
the part of the filename before the first dot. -/
def stemTokens (filename : String) : List (List Char) :=
  pySplit '_' ((pySplit '.' filename.toList).headD [])

/-- The tokens surviving the comprehension guard. -/
def keptTokens (filename : String) : List (List Char) :=
  (stemTokens filename).filter keepTok

/-- The derived context string, exactly as the source computes it. -/
def deriveContext (filename : String) : String :=
  String.mk (joinSp (keptTokens filename))

/-- Modelled from the spec's words (claim C1): "stripping the extension from
the filename", i.e. removing the part from the last dot on (unchanged when
there is no dot). -/
def stripExt (s : List Char) : List Char :=
  if '.' ∈ s then ((s.reverse.dropWhile (fun c => c != '.')).drop 1).reverse else s

/-- Modelled from the spec's words: "a token that is exactly `"g"` or consists
only of digits" (a non-empty all-digit token, matching Python `isdigit`). -/
def specDrop (t : List Char) : Bool :=
  t == ['g'] || (!t.isEmpty && t.all Char.isDigit)

/-- Modelled from the spec's words (claim C1 as stated): strip the extension,
split the stem on `_`, drop the `"g"`/digit tokens, join with single spaces. -/
def deriveContextSpec (filename : String) : String :=
  String.mk (joinSp ((pySplit '_' (stripExt filename.toList)).filter (fun t => !(specDrop t))))

/-- The amended reading of claim C1: the stem is the part of the filename
before the *first* dot (`filename.split(".")[0]`), here written independently
via `takeWhile`. -/
def deriveContextAmended (filename : String) : String :=
  String.mk (joinSp ((pySplit '_' (filename.toList.takeWhile (fun c => c != '.'))).filter
    (fun t => !(specDrop t))))

/-- Two consecutive space characters occur somewhere in the list. -/
def hasDoubleSpace : List Char → Bool
  | [] => false
  | [_] => false
  | a :: b :: rest => (a == ' ' && b == ' ') || hasDoubleSpace (b :: rest)

/-- The extra spacing claim C9 talks about: a leading space, a trailing
space, or two consecutive spaces. -/
def oddSpacing (l : List Char) : Bool :=
  (l.head? == some ' ') || (l.getLast? == some ' ') || hasDoubleSpace l

/-! ## Image downsizer

Source: `downsize_image(image_path, max_size_mb=10)`. The decoded image is
fixed for the whole loop (the file itself is only overwritten at the end by
`shutil.move`), so the result of `img.save(temp_file, quality=q)` is an
oracle `encBytes q`. -/

/-- The quality value at which the loop of `downsize_image` stops, starting
from `quality` (the source starts at 95): stop as soon as the re-encoded size
is within budget or the quality has reached 5, else retry at `quality - 5`. -/
def finalQuality (encSize : ℕ → ℕ) (maxBytes : ℕ) (quality : ℕ) : ℕ :=
  if h : encSize quality ≤ maxBytes ∨ quality ≤ 5 then quality
  else finalQuality encSize maxBytes (quality - 5)
termination_by quality
decreasing_by omega

/-- The successive quality values at which `img.save` runs, in order. -/
def qualitiesUsed (encSize : ℕ → ℕ) (maxBytes : ℕ) (quality : ℕ) : List ℕ :=
  if h : encSize quality ≤ maxBytes ∨ quality ≤ 5 then [quality]
  else quality :: qualitiesUsed encSize maxBytes (quality - 5)
termination_by quality
decreasing_by omega

/-- `downsize_image`: given the save oracle, the path, `max_size_mb` and the
current file bytes, return the returned path, the file bytes on disk after
the call, and the trace of qualities at which `img.save` ran (empty when the
file was already within budget: no re-encode, no temp file, no overwrite). -/
def downsize_image (encBytes : ℕ → List ℕ) (image_path : String) (max_size_mb : ℕ)
    (content : List ℕ) : String × List ℕ × List ℕ :=
  let max_size_bytes := max_size_mb * 1024 * 1024
  if content.length ≤ max_size_bytes then (image_path, content, [])
  else
    (image_path,
     encBytes (finalQuality (fun q => (encBytes q).length) max_size_bytes 95),
     qualitiesUsed (fun q => (encBytes q).length) max_size_bytes 95)

/-! ## Metadata client

Source: `get_image_metadata(image_path, custom_context)`. The HTTP transport
and the upload itself are external; the function is modelled on the parsed
response: a status code and the optional `data` object of the JSON body
(`None` models an absent or null `"data"` key). -/

/-- A JSON value as used by the response shape: a string or a string array. -/
inductive JVal where
  | str : String → JVal
  | arr : List String → JVal
deriving DecidableEq

/-- The parsed HTTP response. -/
structure ApiResponse where
  status_code : ℤ
  data : Option (List (String × JVal))

/-- `d.get(k)` on the association list. -/
def dictLookup (d : List (String × JVal)) (k : String) : Option JVal :=
  (d.find? (fun p => p.1 == k)).map Prod.snd

/-- `data.get(k, "")` for a string-valued field. -/
def getStrField (d : List (String × JVal)) (k : String) : String :=
  match dictLookup d k with
  | some (JVal.str s) => s
  | _ => ""

/-- `data.get(k, [])` for an array-valued field. -/
def getArrField (d : List (String × JVal)) (k : String) : List String :=
  match dictLookup d k with
  | some (JVal.arr l) => l
  | _ => []

/-- The diagnostic printed on a non-200 status. -/
def failMessage (status : ℤ) : String :=
  "Failed to fetch metadata. Check your API token. Status code: " ++ toString status

/-- Python truthiness of the optional `data` dict: `None` and `{}` are falsy. -/
def dataFalsy : Option (List (String × JVal)) → Bool
  | none => true
  | some d => d.isEmpty

/-- `get_image_metadata`, modelled on the parsed response: result triple
`(title, description, keywords)` plus the printed log. On status 200 with a
truthy `data` it extracts the fields (with defaults) and logs the fetch; on
any other status it logs the failure message; in all remaining cases it
returns `(None, None, [])` with no diagnostic. -/
def get_image_metadata (resp : ApiResponse) :
    (Option String × Option String × List String) × List String :=
  if resp.status_code = 200 then
    match resp.data with
    | some d =>
      if d.isEmpty then ((none, none, []), [])
      else
        ((some (getStrField d "title"), some (getStrField d "description"),
          getArrField d "keywords"),
         ["Metadata fetched for image"])
    | none => ((none, none, []), [])
  else ((none, none, []), [failMessage resp.status_code])

/-! ## Batch processor

Source: `ImageKeywordingTool.process_images_in_folder(folder_path)`. The
directory listing is a `List String` of entry names; the per-image API call
(`get_image_metadata(image_path, custom_context)`) is abstracted as a
function `meta : String → String → Option String × Option String × List
String` of the file name and the derived context. The CSV is the list of its
rows (each a list of fields); the progress-bar updates are collected in a
`List ℤ`. -/

/-- `filename.lower().endswith((".jpg", ".jpeg"))`, at the character level:
lower-case the name and test each suffix. -/
def isImageName (filename : String) : Bool :=
  let lowered := filename.toList.map Char.toLower
  List.isSuffixOf ".jpg".toList lowered || List.isSuffixOf ".jpeg".toList lowered

/-- The ordered work list: directory entries whose name matches, in
enumeration order. -/
def matchingImages (entries : List String) : List String :=
  entries.filter isImageName

/-- The fixed header row. -/
def headerRow : List String :=
  ["Image Name", "Title", "Description", "Keywords"]

/-- Python truthiness of the title value (`None` and `""` are falsy). -/
def pyTruthy : Option String → Bool
  | none => false
  | some s => !s.isEmpty

/-- Python 3 `round` to an integer: nearest, ties to even. -/
def pyRound (q : ℚ) : ℤ :=
  if q - ⌊q⌋ < 1 / 2 then ⌊q⌋
  else if q - ⌊q⌋ > 1 / 2 then ⌊q⌋ + 1
  else if ⌊q⌋ % 2 = 0 then ⌊q⌋ else ⌊q⌋ + 1

/-- Division as Python performs it: raising on a zero divisor. -/
def pyDivQ (a b : ℚ) : Except String ℚ :=
  if b = 0 then Except.error "ZeroDivisionError: division by zero"
  else Except.ok (a / b)

/-- The progress value reported after the `p`-th file of `total`:
`int(round(p / total * 100))`. -/
def progressAt (total p : ℕ) : ℤ :=
  pyRound ((p : ℚ) / (total : ℚ) * 100)

/-- The body of the `for filename in images_to_process` loop, threading the
count of processed images; produces the data rows written and the progress
values reported, or the propagated division error. -/
def processLoop (meta : String → String → Option String × Option String × List String)
    (total : ℕ) : ℕ → List String → Except String (List (List String) × List ℤ)
  | _, [] => Except.ok ([], [])
  | processed, filename :: rest =>
    let custom_context := deriveContext filename
    let m := meta filename custom_context
    let written : List (List String) :=
      if pyTruthy m.1 && !m.2.2.isEmpty then
        [[filename, m.1.getD "", m.2.1.getD "", String.intercalate ", " m.2.2]]
      else []
    match pyDivQ ((processed + 1 : ℕ) : ℚ) ((total : ℕ) : ℚ) with
    | Except.error e => Except.error e
    | Except.ok progress =>
      match processLoop meta total (processed + 1) rest with
      | Except.error e => Except.error e
      | Except.ok (rows, progs) =>
        Except.ok (written ++ rows, pyRound (progress * 100) :: progs)

/-- `process_images_in_folder`: filter the listing, write the header, run the
loop. Result: the CSV (header row plus data rows) and the list of reported
progress values, or the propagated error. -/
def process_images_in_folder (entries : List String)
    (meta : String → String → Option String × Option String × List String) :
    Except String (List (List String) × List ℤ) :=
  let images_to_process := matchingImages entries
  match processLoop meta images_to_process.length 0 images_to_process with
  | Except.error e => Except.error e
  | Except.ok (rows, progs) => Except.ok (headerRow :: rows, progs)

/-- The CSV part of a run's outcome. -/
def runResultCsv (entries : List String)
    (meta : String → String → Option String × Option String × List String) :
    Except String (List (List String)) :=
  Except.map Prod.fst (process_images_in_folder entries meta)

/-- The progress part of a run's outcome. -/
def runResultProgs (entries : List String)
    (meta : String → String → Option String × Option String × List String) :
    Except String (List ℤ) :=
  Except.map Prod.snd (process_images_in_folder entries meta)

/-- The declarative per-image row (from the spec's words, claims C4/C5): a
row is produced exactly when the title is present and non-empty and the
keyword list is non-empty, and its keywords field joins the keywords with
`", "`. -/
def rowSpec (filename : String) :
    Option String × Option String × List String → Option (List String)
  | (some title, d, keywords) =>
    if title ≠ "" ∧ keywords ≠ [] then
      some [filename, title, d.getD "", String.intercalate ", " keywords]
    else none
  | (none, _, _) => none

/-- A 300-image folder listing, the concrete run refuting strict progress
monotonicity. -/
def cexEntries : List String := List.replicate 300 "x.jpg"

/-- A metadata stub for that run. -/
def cexMeta : String → String → Option String × Option String × List String :=
  fun _ _ => (some "t", some "d", ["k"])

/-- The progress values of that run. -/
def cexProgs : List ℤ :=
  (List.range 300).map (fun i => progressAt 300 (1 + i))

/-! ## Helper lemmas -/

/-- `splitCharAux` never produces the empty list; its first piece is the
accumulator followed by the characters before the first separator. -/
theorem splitCharAux_headD (sep : Char) :
    ∀ (l acc : List Char),
      (splitCharAux sep l acc).headD [] = acc.reverse ++ l.takeWhile (fun c => c != sep) := by
  intro l
  induction l with
  | nil => intro acc; simp [splitCharAux]
  | cons c cs ih =>
    intro acc
    by_cases hc : c = sep
    · subst hc
      simp [splitCharAux, List.takeWhile_cons]
    · have hb : (c != sep) = true := by simp [hc]
      simp only [splitCharAux, if_neg hc]
      rw [ih (c :: acc), List.takeWhile_cons, hb]
      simp

/-- The comprehension guard agrees with the negation of the spec's drop
condition. -/
theorem keepTok_eq_not_specDrop : keepTok = fun t => !(specDrop t) := by
  funext t
  simp [keepTok, specDrop, pyIsDigit, Bool.not_or, bne]

/-- A double space survives prefixing. -/
theorem hasDoubleSpace_append (a b : List Char) (hb : hasDoubleSpace b = true) :
    hasDoubleSpace (a ++ b) = true := by
  induction a with
  | nil => simpa
  | cons c a' ih =>
    cases a' with
    | nil =>
      cases b with
      | nil => simp [hasDoubleSpace] at hb
      | cons x b' =>
        cases b' with
        | nil => simp [hasDoubleSpace] at hb
        | cons y b'' =>
          simp [hasDoubleSpace] at hb ⊢
          tauto
    | cons d a'' =>
      simp only [List.cons_append] at ih ⊢
      simp [hasDoubleSpace, ih]

/-- `getLast?` looks past a prefix appended before a non-empty list. -/
theorem getLast?_append_cons (t : List Char) (c : Char) (j : List Char) :
    (t ++ c :: j).getLast? = (c :: j).getLast? := by
  simp [List.getLast?_append]
  cases hj : (c :: j).getLast? with
  | none => simp [List.getLast?_eq_none_iff] at hj
  | some x => simp

/-- Gluing a further token in front with a separating space preserves odd
spacing. -/
theorem oddSpacing_lift (t j : List Char) (hj : oddSpacing j = true) :
    oddSpacing (t ++ ' ' :: j) = true := by
  unfold oddSpacing at hj ⊢
  simp only [Bool.or_eq_true, beq_iff_eq] at hj ⊢
  rcases hj with (hh | hl) | hd
  · rcases j with _ | ⟨x, j'⟩
    · simp at hh
    · simp only [List.head?_cons, Option.some.injEq] at hh
      subst hh
      right
      exact hasDoubleSpace_append t (' ' :: ' ' :: j') (by simp [hasDoubleSpace])
  · left; right
    rw [getLast?_append_cons]
    rcases j with _ | ⟨x, j'⟩
    · simp at hl
    · rw [List.getLast?_cons_cons]; exact hl
  · right
    apply hasDoubleSpace_append
    rcases j with _ | ⟨x, j'⟩
    · simp [hasDoubleSpace] at hd
    · rcases j' with _ | ⟨y, j''⟩
      · simp [hasDoubleSpace] at hd
      · simp [hasDoubleSpace] at hd ⊢
        tauto

/-- Joining with single spaces a token list of length at least two that
contains an empty token yields a leading, trailing, or doubled space. -/
theorem joinSp_oddSpacing :
    ∀ toks : List (List Char), [] ∈ toks → 2 ≤ toks.length →
      oddSpacing (joinSp toks) = true := by
  intro toks
  induction toks with
  | nil => intro h; simp at h
  | cons t ts ih =>
    intro hmem hlen
    cases ts with
    | nil => simp at hlen
    | cons u ts' =>
      by_cases ht : t = []
      · subst ht
        simp [joinSp, oddSpacing]
      · have hmem' : [] ∈ u :: ts' := by
          rcases List.mem_cons.mp hmem with h | h
          · exact absurd h.symm ht
          · exact h
        cases ts' with
        | nil =>
          have hu : u = [] := by simpa using hmem'
          subst hu
          have hj : joinSp [t, ([] : List Char)] = t ++ [' '] := by simp [joinSp]
          rw [hj]
          unfold oddSpacing
          simp [List.getLast?_concat]
        | cons v ts'' =>
          have hodd := ih hmem' (by simp)
          have hj : joinSp (t :: u :: v :: ts'') = t ++ ' ' :: joinSp (u :: v :: ts'') := rfl
          rw [hj]
          exact oddSpacing_lift _ _ hodd

/-- The quality loop starting at a positive multiple of 5 runs at most `k`
times and never below quality 5. -/
theorem qualitiesUsed_five_mul (encSize : ℕ → ℕ) (maxBytes : ℕ) :
    ∀ k : ℕ, 1 ≤ k →
      (qualitiesUsed encSize maxBytes (5 * k)).length ≤ k ∧
      ∀ x ∈ qualitiesUsed encSize maxBytes (5 * k), 5 ≤ x := by
  intro k
  induction k with
  | zero => intro h; exact absurd h (by omega)
  | succ n ih =>
    intro _
    rw [qualitiesUsed]
    by_cases hc : encSize (5 * (n + 1)) ≤ maxBytes ∨ 5 * (n + 1) ≤ 5
    · rw [dif_pos hc]
      refine ⟨by simp, ?_⟩
      intro x hx
      simp only [List.mem_singleton] at hx
      omega
    · rw [dif_neg hc]
      push_neg at hc
      have hn : 1 ≤ n := by omega
      have h5 : 5 * (n + 1) - 5 = 5 * n := by omega
      rw [h5]
      obtain ⟨hlen, hmem⟩ := ih hn
      refine ⟨by simpa using hlen, ?_⟩
      intro x hx
      rcases List.mem_cons.mp hx with h | h
      · omega
      · exact hmem x h

/-- `downsize_image` on a file already within budget returns the path and
content unchanged and runs no re-encode. -/
theorem downsize_noop (encBytes : ℕ → List ℕ) (image_path : String) (max_size_mb : ℕ)
    (content : List ℕ) (h : content.length ≤ max_size_mb * 1024 * 1024) :
    downsize_image encBytes image_path max_size_mb content = (image_path, content, []) := by
  simp only [downsize_image]
  rw [if_pos h]

/-- `pyRound` never exceeds the floor by more than one. -/
theorem pyRound_le (q : ℚ) : pyRound q ≤ ⌊q⌋ + 1 := by
  unfold pyRound
  split_ifs <;> omega

/-- `pyRound` is at least the floor. -/
theorem le_pyRound (q : ℚ) : ⌊q⌋ ≤ pyRound q := by
  unfold pyRound
  split_ifs <;> omega

/-- Rounding half-to-even is monotone. -/
theorem pyRound_mono {x y : ℚ} (h : x ≤ y) : pyRound x ≤ pyRound y := by
  have hf : ⌊x⌋ ≤ ⌊y⌋ := Int.floor_mono h
  rcases lt_or_eq_of_le hf with hlt | heq
  · have h1 := pyRound_le x
    have h2 := le_pyRound y
    omega
  · unfold pyRound
    rw [heq]
    split_ifs <;> first | omega | linarith

/-- Rounding an integer returns it. -/
theorem pyRound_intCast (z : ℤ) : pyRound ((z : ℚ)) = z := by
  unfold pyRound
  rw [Int.floor_intCast]
  norm_num

/-- The reported progress value is monotone in the processed count. -/
theorem progressAt_mono (total : ℕ) {a b : ℕ} (h : a ≤ b) :
    progressAt total a ≤ progressAt total b := by
  unfold progressAt
  apply pyRound_mono
  rcases Nat.eq_zero_or_pos total with h0 | hp
  · subst h0; norm_num
  · have ht : (0 : ℚ) < (total : ℚ) := by exact_mod_cast hp
    gcongr

/-- After the last of `total > 0` files the reported progress is exactly 100. -/
theorem progressAt_self {total : ℕ} (h : 0 < total) : progressAt total total = 100 := by
  unfold progressAt
  have ht : ((total : ℕ) : ℚ) ≠ 0 := by
    exact_mod_cast h.ne'
  rw [div_self ht, one_mul]
  have h100 : ((100 : ℤ) : ℚ) = (100 : ℚ) := by norm_num
  rw [← h100, pyRound_intCast]

/-- After the second of 300 files the code reports 1 percent. -/
theorem progress_300_2 : progressAt 300 2 = 1 := by
  unfold progressAt pyRound
  have h : ((2 : ℕ) : ℚ) / ((300 : ℕ) : ℚ) * 100 = ((200 : ℕ) : ℚ) / ((300 : ℕ) : ℚ) := by
    push_cast; ring
  rw [h, Rat.floor_natCast_div_natCast]
  norm_num

/-- After the third of 300 files the code again reports 1 percent. -/
theorem progress_300_3 : progressAt 300 3 = 1 := by
  unfold progressAt pyRound
  have h : ((3 : ℕ) : ℚ) / ((300 : ℕ) : ℚ) * 100 = ((300 : ℕ) : ℚ) / ((300 : ℕ) : ℚ) := by
    push_cast; ring
  rw [h, Rat.floor_natCast_div_natCast]
  norm_num

/-- The inline row-writing condition of the loop agrees with the declarative
per-image row. -/
theorem written_toList (filename : String) (m : Option String × Option String × List String) :
    (if pyTruthy m.1 && !m.2.2.isEmpty then
        [[filename, m.1.getD "", m.2.1.getD "", String.intercalate ", " m.2.2]]
      else ([] : List (List String)))
      = (rowSpec filename m).toList := by
  obtain ⟨t, d, k⟩ := m
  cases t with
  | none => simp [pyTruthy, rowSpec]
  | some s =>
    by_cases hs : s = ""
    · subst hs
      simp [pyTruthy, rowSpec, String.isEmpty_iff]
    · by_cases hk : k = []
      · subst hk
        simp [pyTruthy, rowSpec, hs]
      · simp [pyTruthy, rowSpec, hs, hk, String.isEmpty_iff, List.isEmpty_iff]

/-- Characterisation of the per-image loop when the total is positive: it
never errors, its rows are the declarative rows, and its progress reports
follow `progressAt`. -/
theorem processLoop_ok (meta : String → String → Option String × Option String × List String)
    (total : ℕ) (ht : 0 < total) (l : List String) :
    ∀ processed : ℕ,
      processLoop meta total processed l =
        Except.ok (l.filterMap (fun f => rowSpec f (meta f (deriveContext f))),
          (List.range l.length).map (fun i => progressAt total (processed + 1 + i))) := by
  induction l with
  | nil => intro processed; rfl
  | cons f rest ih =>
    intro processed
    have htq : ((total : ℕ) : ℚ) ≠ 0 := by
      simpa using ht.ne'
    simp only [processLoop, pyDivQ, if_neg htq, ih (processed + 1)]
    rw [written_toList]
    have hrows : (rowSpec f (meta f (deriveContext f))).toList ++
        rest.filterMap (fun g => rowSpec g (meta g (deriveContext g))) =
        (f :: rest).filterMap (fun g => rowSpec g (meta g (deriveContext g))) := by
      cases hr : rowSpec f (meta f (deriveContext f)) <;>
        simp [List.filterMap_cons, hr]
    rw [hrows]
    have hprogs : pyRound (((processed + 1 : ℕ) : ℚ) / ((total : ℕ) : ℚ) * 100) ::
        (List.range rest.length).map (fun i => progressAt total (processed + 1 + 1 + i)) =
        (List.range (rest.length + 1)).map (fun i => progressAt total (processed + 1 + i)) := by
      rw [List.range_succ_eq_map, List.map_cons, List.map_map]
      congr 1
      apply List.map_congr_left
      intro a _
      show progressAt total (processed + 1 + 1 + a) = progressAt total (processed + 1 + (a + 1))
      congr 1
      omega
    rw [hprogs]
    rfl

/-- The whole run never errors; its CSV is the header followed by the
declarative rows of the work list, and its progress reports follow
`progressAt`. -/
theorem process_eq (entries : List String)
    (meta : String → String → Option String × Option String × List String) :
    process_images_in_folder entries meta =
      Except.ok (headerRow :: (matchingImages entries).filterMap
          (fun f => rowSpec f (meta f (deriveContext f))),
        (List.range (matchingImages entries).length).map
          (fun i => progressAt (matchingImages entries).length (1 + i))) := by
  by_cases h : matchingImages entries = []
  · simp [process_images_in_folder, h, processLoop]
  · have ht : 0 < (matchingImages entries).length := List.length_pos.mpr h
    simp only [process_images_in_folder]
    rw [processLoop_ok meta _ ht _ 0]

/-- `filterMap` of an everywhere-`some` function is a `map`. -/
theorem filterMap_eq_map_of_forall {α β : Type} (l : List α) (F : α → Option β) (G : α → β)
    (h : ∀ a ∈ l, F a = some (G a)) : l.filterMap F = l.map G := by
  induction l with
  | nil => rfl
  | cons a l ih =>
    rw [List.filterMap_cons_some (h a (List.mem_cons_self a l)), List.map_cons,
      ih (fun x hx => h x (List.mem_cons_of_mem a hx))]

/-! ## Claims -/

/-- Claim C1, counterexample: on `"a.b_c.jpg"` the code derives `"a"` (the
part before the *first* dot), while stripping the extension as the claim
states yields stem `"a.b_c"` and context `"a.b c"`. -/
theorem c1_context_counterexample :
    deriveContext "a.b_c.jpg" = "a" ∧ deriveContextSpec "a.b_c.jpg" = "a.b c" ∧
    deriveContext "a.b_c.jpg" ≠ deriveContextSpec "a.b_c.jpg" :=
  ⟨by decide, by decide, by decide⟩

/-- Claim C1 (amended): for every filename the derived context equals the
result of taking the part of the filename before the first dot, splitting it
on `_`, dropping tokens that are exactly `"g"` or non-empty all-digit, and
joining the survivors with single spaces in order. -/
theorem c1_context_amended (filename : String) :
    deriveContext filename = deriveContextAmended filename := by
  unfold deriveContext deriveContextAmended keptTokens stemTokens
  rw [keepTok_eq_not_specDrop]
  have h := splitCharAux_headD '.' filename.toList []
  simp only [List.reverse_nil, List.nil_append] at h
  unfold pySplit
  rw [h]

/-- Claim C2: a folder with no matching image yields a CSV of exactly the
header row, and the run raises no division error (the division is never
reached when the work list is empty). -/
theorem c2_empty_folder (entries : List String)
    (meta : String → String → Option String × Option String × List String)
    (h : ∀ f ∈ entries, isImageName f = false) :
    process_images_in_folder entries meta = Except.ok ([headerRow], []) ∧
    ([headerRow] : List (List String)).length = 1 := by
  have hm : matchingImages entries = [] := by
    unfold matchingImages
    rw [List.filter_eq_nil_iff]
    intro a ha
    simp [h a ha]
  refine ⟨?_, rfl⟩
  rw [process_eq, hm]
  simp

/-- Witness for C2 at the concrete listing `["doc.txt"]`. -/
theorem c2_empty_folder_witness :
    (∀ f ∈ (["doc.txt"] : List String), isImageName f = false) ∧
    process_images_in_folder ["doc.txt"] (fun _ _ => (none, none, []))
      = Except.ok ([headerRow], []) :=
  ⟨by decide, (c2_empty_folder ["doc.txt"] (fun _ _ => (none, none, [])) (by decide)).1⟩

/-- Claim C3 (amended): a non-200 response yields the empty result together
with the diagnostic naming the status code; a 200 response with absent or
empty `data` yields the empty result with no diagnostic at all. -/
theorem c3_failure_result (resp : ApiResponse) :
    (resp.status_code ≠ 200 →
      get_image_metadata resp = ((none, none, []), [failMessage resp.status_code])) ∧
    (resp.status_code = 200 → dataFalsy resp.data = true →
      get_image_metadata resp = ((none, none, []), [])) := by
  constructor
  · intro h
    unfold get_image_metadata
    rw [if_neg h]
  · intro h hd
    unfold get_image_metadata
    rw [if_pos h]
    cases hr : resp.data with
    | none => rfl
    | some d =>
      rw [hr] at hd
      simp only [dataFalsy] at hd
      simp [hd]

/-- Claim C3, counterexample: a 200 response with absent or with empty `data`
returns the empty result but emits no diagnostic (the log is empty), contrary
to the claim. -/
theorem c3_silent_counterexample :
    get_image_metadata ⟨200, none⟩ = ((none, none, []), ([] : List String)) ∧
    get_image_metadata ⟨200, some []⟩ = ((none, none, []), ([] : List String)) :=
  ⟨rfl, rfl⟩

/-- Witness for C3 at the concrete response with status 404. -/
theorem c3_failure_witness :
    get_image_metadata ⟨404, none⟩ = ((none, none, []), [failMessage 404]) :=
  (c3_failure_result ⟨404, none⟩).1 (by decide)

/-- Claim C4: a data row is written for an image of the work list exactly
when the fetched title is present and non-empty and the keyword list is
non-empty (the description may be empty), and a written row joins the
keywords with `", "` — stated as: the CSV equals the header followed by the
declarative `rowSpec` rows of the work list. -/
theorem c4_row_iff (entries : List String)
    (meta : String → String → Option String × Option String × List String) :
    runResultCsv entries meta =
      Except.ok (headerRow ::
        (matchingImages entries).filterMap (fun f => rowSpec f (meta f (deriveContext f)))) := by
  unfold runResultCsv
  rw [process_eq]
  rfl

/-- Claim C5: when every image of the work list fetches a non-empty title and
non-empty keyword list, the CSV is the header plus one row per image in
enumeration order, N + 1 lines in total. -/
theorem c5_all_success (entries : List String)
    (meta : String → String → Option String × Option String × List String)
    (ti de : String → String) (kw : String → List String)
    (h : ∀ f ∈ matchingImages entries,
        meta f (deriveContext f) = (some (ti f), some (de f), kw f) ∧ ti f ≠ "" ∧ kw f ≠ []) :
    runResultCsv entries meta =
      Except.ok (headerRow :: (matchingImages entries).map
        (fun f => [f, ti f, de f, String.intercalate ", " (kw f)])) ∧
    (headerRow :: (matchingImages entries).map
        (fun f => [f, ti f, de f, String.intercalate ", " (kw f)])).length
      = (matchingImages entries).length + 1 := by
  constructor
  · unfold runResultCsv
    rw [process_eq]
    have hmap : (matchingImages entries).filterMap (fun f => rowSpec f (meta f (deriveContext f)))
        = (matchingImages entries).map
          (fun f => [f, ti f, de f, String.intercalate ", " (kw f)]) := by
      apply filterMap_eq_map_of_forall
      intro f hf
      obtain ⟨hm, hti, hkw⟩ := h f hf
      rw [hm]
      simp [rowSpec, hti, hkw]
    rw [hmap]
    rfl
  · simp

/-- Witness for C5 at a concrete three-entry listing with two images. -/
theorem c5_all_success_witness :
    (headerRow :: (matchingImages ["a.jpg", "b.txt", "c.JPEG"]).map
        (fun f => [f, "T", "D", String.intercalate ", " ["k1", "k2"]])).length
      = (matchingImages ["a.jpg", "b.txt", "c.JPEG"]).length + 1 :=
  (c5_all_success ["a.jpg", "b.txt", "c.JPEG"] (fun _ _ => (some "T", some "D", ["k1", "k2"]))
    (fun _ => "T") (fun _ => "D") (fun _ => ["k1", "k2"]) (by decide)).2

/-- Claim C6: for a file over budget the quality loop re-encodes at most 19
times and never at a quality below 5. -/
theorem c6_quality_loop (encBytes : ℕ → List ℕ) (image_path : String)
    (max_size_mb : ℕ) (content : List ℕ)
    (h : max_size_mb * 1024 * 1024 < content.length) :
    (downsize_image encBytes image_path max_size_mb content).2.2.length ≤ 19 ∧
    ∀ q ∈ (downsize_image encBytes image_path max_size_mb content).2.2, 5 ≤ q := by
  simp only [downsize_image]
  rw [if_neg (by omega)]
  have h19 := qualitiesUsed_five_mul (fun q => (encBytes q).length)
      (max_size_mb * 1024 * 1024) 19 (by norm_num)
  norm_num at h19
  simpa using h19

/-- Witness for C6 at a concrete over-budget file. -/
theorem c6_quality_loop_witness :
    (0 * 1024 * 1024 < ([7] : List ℕ).length) ∧
    ((downsize_image (fun _ => ([] : List ℕ)) "p.jpg" 0 [7]).2.2.length ≤ 19 ∧
      ∀ q ∈ (downsize_image (fun _ => ([] : List ℕ)) "p.jpg" 0 [7]).2.2, 5 ≤ q) :=
  ⟨by decide, c6_quality_loop (fun _ => []) "p.jpg" 0 [7] (by decide)⟩

/-- Claim C7: a file already within budget is returned with unchanged path
and byte-identical content, with no re-encode at all. -/
theorem c7_noop (encBytes : ℕ → List ℕ) (image_path : String) (max_size_mb : ℕ)
    (content : List ℕ) (h : content.length ≤ max_size_mb * 1024 * 1024) :
    downsize_image encBytes image_path max_size_mb content = (image_path, content, []) :=
  downsize_noop encBytes image_path max_size_mb content h

/-- Witness for C7 at a concrete in-budget file. -/
theorem c7_noop_witness :
    (([1, 2, 3] : List ℕ).length ≤ 1 * 1024 * 1024) ∧
    downsize_image (fun _ => ([] : List ℕ)) "p.jpg" 1 [1, 2, 3] = ("p.jpg", [1, 2, 3], []) :=
  ⟨by decide, c7_noop (fun _ => []) "p.jpg" 1 [1, 2, 3] (by decide)⟩

/-- Claim C8: for a file initially over budget, once a call has left it at or
under budget, a second call (with whatever encoder the new bytes decode to)
changes nothing and re-encodes nothing. -/
theorem c8_idempotent (enc enc₂ : ℕ → List ℕ) (image_path : String) (max_size_mb : ℕ)
    (content : List ℕ) (_h₀ : max_size_mb * 1024 * 1024 < content.length)
    (h₁ : (downsize_image enc image_path max_size_mb content).2.1.length
        ≤ max_size_mb * 1024 * 1024) :
    downsize_image enc₂ (downsize_image enc image_path max_size_mb content).1 max_size_mb
        (downsize_image enc image_path max_size_mb content).2.1
      = ((downsize_image enc image_path max_size_mb content).1,
         (downsize_image enc image_path max_size_mb content).2.1, []) :=
  downsize_noop _ _ _ _ h₁

/-- Witness for C8 at a concrete over-budget file whose first downsizing
lands within budget. -/
theorem c8_idempotent_witness :
    (0 * 1024 * 1024 < ([7] : List ℕ).length) ∧
    downsize_image (fun _ => ([0] : List ℕ))
        (downsize_image (fun _ => ([] : List ℕ)) "p.jpg" 0 [7]).1 0
        (downsize_image (fun _ => ([] : List ℕ)) "p.jpg" 0 [7]).2.1
      = ((downsize_image (fun _ => ([] : List ℕ)) "p.jpg" 0 [7]).1,
         (downsize_image (fun _ => ([] : List ℕ)) "p.jpg" 0 [7]).2.1, []) :=
  ⟨by decide, c8_idempotent (fun _ => []) (fun _ => [0]) "p.jpg" 0 [7] (by decide)
    (by simp [downsize_image])⟩

/-- Claim C9, counterexample: `"_42.jpg"` has a leading underscore in its
stem, so an empty token survives; yet the only other token (`"42"`) is
dropped, and the derived context is `""`, containing no extra space at all. -/
theorem c9_spacing_counterexample :
    stemTokens "_42.jpg" = [[], ['4', '2']] ∧
    deriveContext "_42.jpg" = "" ∧
    oddSpacing (deriveContext "_42.jpg").toList = false :=
  ⟨by decide, by decide, by decide⟩

/-- Claim C9 (amended): empty tokens always survive the filter; whenever the
surviving token list has at least two entries one of which is empty, the
derived context carries a leading, trailing, or doubled space. -/
theorem c9_spacing_amended (filename : String) :
    ([] ∈ stemTokens filename → [] ∈ keptTokens filename) ∧
    ([] ∈ keptTokens filename → 2 ≤ (keptTokens filename).length →
      oddSpacing (deriveContext filename).toList = true) := by
  constructor
  · intro h
    exact List.mem_filter.mpr ⟨h, by decide⟩
  · intro h1 h2
    have hds : (deriveContext filename).toList = joinSp (keptTokens filename) := rfl
    rw [hds]
    exact joinSp_oddSpacing _ h1 h2

/-- Witness for C9 at the concrete filename `"_a.jpg"`. -/
theorem c9_spacing_witness :
    ([] ∈ keptTokens "_a.jpg") ∧ oddSpacing (deriveContext "_a.jpg").toList = true :=
  ⟨by decide, (c9_spacing_amended "_a.jpg").2 (by decide) (by decide)⟩

/-- Claim C10, counterexample: in the 300-image run, the values reported
after the second and after the third file are both 1, so the reported
sequence is not strictly increasing. -/
theorem c10_progress_counterexample :
    runResultProgs cexEntries cexMeta = Except.ok cexProgs ∧
    cexProgs[1]? = some 1 ∧ cexProgs[2]? = some 1 := by
  refine ⟨?_, ?_, ?_⟩
  · unfold runResultProgs
    rw [process_eq]
    have hm : matchingImages cexEntries = cexEntries := by
      unfold matchingImages cexEntries
      rw [List.filter_replicate_of_pos (by decide)]
    rw [hm]
    simp only [cexEntries, List.length_replicate]
    rfl
  · unfold cexProgs
    rw [List.getElem?_map, List.getElem?_range (by norm_num)]
    show some (progressAt 300 2) = some 1
    rw [progress_300_2]
  · unfold cexProgs
    rw [List.getElem?_map, List.getElem?_range (by norm_num)]
    show some (progressAt 300 3) = some 1
    rw [progress_300_3]

/-- Claim C10 (amended): over any non-empty work list the value reported
after the `p`-th file is `pyRound (p / total * 100)`, the reported sequence
is non-decreasing, and the value after the last file is exactly 100. -/
theorem c10_progress_amended (entries : List String)
    (meta : String → String → Option String × Option String × List String)
    (h : matchingImages entries ≠ []) :
    runResultProgs entries meta =
        Except.ok ((List.range (matchingImages entries).length).map
          (fun i => progressAt (matchingImages entries).length (1 + i))) ∧
    ((List.range (matchingImages entries).length).map
        (fun i => progressAt (matchingImages entries).length (1 + i))).Pairwise (· ≤ ·) ∧
    ((List.range (matchingImages entries).length).map
        (fun i => progressAt (matchingImages entries).length (1 + i))).getLast? = some 100 := by
  refine ⟨?_, ?_, ?_⟩
  · unfold runResultProgs
    rw [process_eq]
    rfl
  · rw [List.pairwise_map]
    apply List.Pairwise.imp ?_ (List.pairwise_lt_range _)
    intro a b hab
    exact progressAt_mono _ (by omega)
  · obtain ⟨n, hn⟩ : ∃ n, (matchingImages entries).length = n + 1 := by
      have := List.length_pos.mpr h
      exact ⟨(matchingImages entries).length - 1, by omega⟩
    simp only [hn, List.range_succ, List.map_append, List.map_cons, List.map_nil,
      List.getLast?_concat]
    have h1n : 1 + n = n + 1 := by omega
    rw [h1n, progressAt_self (by omega)]

/-- Witness for C10 at the concrete one-image listing `["x.jpg"]`. -/
theorem c10_progress_witness :
    ((List.range (matchingImages ["x.jpg"]).length).map
        (fun i => progressAt (matchingImages ["x.jpg"]).length (1 + i))).getLast? = some 100 :=
  (c10_progress_amended ["x.jpg"] (fun _ _ => (some "t", some "d", ["k"])) (by decide)).2.2
